import Mathlib

/-!
Verification development for the DataAlchemist validation and allocation
engines.

The definitions below are a shallow embedding of the TypeScript source:
the GeminiProvider validation battery (validateData and its checks) and the
AllocationEngine class (task queue construction, eligibility filtering,
business rule application, phase selection, and summary assembly).

Modelling conventions.
JavaScript strings are Lean Strings; numeric fields holding integer data are
Int; the floating point priority weights and confidence scores are modelled
as rationals, which is faithful for the arithmetic the source performs.
JSON.parse is modelled by an executable parser for the JSON grammar; an
array value all of whose elements are integer literals is extracted as a
List Int.  Valid JSON whose value is not an array of integer literals is
outside the modelled domain (the source lets such values flow into
dynamically typed code); theorems that depend on slot or phase parsing
carry explicit conformance hypotheses where this matters.
Array.prototype.sort with a comparator is stable in JavaScript (ES2019+),
and is modelled by a stable insertion sort; a worker stays before another
exactly when the comparator answer is nonpositive.  Enumeration order of
object keys that are non-negative integers below 2^32 is ascending numeric
order, modelled by sorting the deduplicated key list.
-/

/-- The left brace character, written by code to keep brace characters out
of string literals. -/
def braceL : Char := Char.ofNat 123

/-- The right brace character. -/
def braceR : Char := Char.ofNat 125

/-- JSON whitespace characters accepted by JSON.parse between tokens. -/
def isJsonWs (c : Char) : Bool :=
  c = ' ' || c = '\t' || c = '\n' || c = '\r'

/-- Drop leading JSON whitespace from a character list. -/
def skipWs : List Char → List Char
  | [] => []
  | c :: cs => if isJsonWs c then skipWs cs else c :: cs

/-- Numeric value of a list of decimal digit characters. -/
def digitsToNat (ds : List Char) : Nat :=
  ds.foldl (fun n c => n * 10 + (c.toNat - 48)) 0

/-- Split off the maximal leading run of decimal digits. -/
def decDigits (cs : List Char) : List Char × List Char :=
  cs.span Char.isDigit

/-- Hexadecimal digit test, used by the JSON string escape rule. -/
def isHexDigit (c : Char) : Bool :=
  c.isDigit || ('a' ≤ c && c ≤ 'f') || ('A' ≤ c && c ≤ 'F')

/-- Parse a JSON number literal at the head of the input.  The outer Option
is failure of the number grammar; the inner Option Int is some value exactly
when the literal is a plain integer literal (no fraction part, no exponent),
which is the shape the source feeds to its slot and phase arrays. -/
def jsonNumber (cs : List Char) : Option (Option Int × List Char) :=
  let signSplit : Bool × List Char :=
    match cs with
    | c :: r => if c = '-' then (true, r) else (false, cs)
    | [] => (false, cs)
  let neg := signSplit.1
  let ds := (decDigits signSplit.2).1
  let rest1 := (decDigits signSplit.2).2
  if ds.isEmpty then none
  else if ds.length > 1 && ds.headD '0' = '0' then none
  else
    let fracRes : Option (Bool × List Char) :=
      match rest1 with
      | c :: r =>
        if c = '.' then
          let fs := (decDigits r).1
          if fs.isEmpty then none else some (true, (decDigits r).2)
        else some (false, rest1)
      | [] => some (false, rest1)
    match fracRes with
    | none => none
    | some (hasFrac, rest2) =>
      let expRes : Option (Bool × List Char) :=
        match rest2 with
        | c :: r =>
          if c = 'e' || c = 'E' then
            let r1 :=
              match r with
              | s :: r2 => if s = '+' || s = '-' then r2 else r
              | [] => r
            let es := (decDigits r1).1
            if es.isEmpty then none else some (true, (decDigits r1).2)
          else some (false, rest2)
        | [] => some (false, rest2)
      match expRes with
      | none => none
      | some (hasExp, rest3) =>
        let v : Option Int :=
          if hasFrac || hasExp then none
          else if neg then some (-(digitsToNat ds : Int)) else some (digitsToNat ds : Int)
        some (v, rest3)

/-- Consume the rest of a JSON string literal (the opening quote has already
been consumed), validating escape sequences; returns the remaining input. -/
def jsonStringRest : Nat → List Char → Option (List Char)
  | 0, _ => none
  | Nat.succ fuel, cs =>
    match cs with
    | [] => none
    | c :: rest =>
      if c = '"' then some rest
      else if c = '\\' then
        match rest with
        | [] => none
        | e :: rest2 =>
          if e = '"' || e = '\\' || e = '/' || e = 'b' || e = 'f' || e = 'n' || e = 'r' || e = 't' then
            jsonStringRest fuel rest2
          else if e = 'u' then
            match rest2 with
            | h1 :: h2 :: h3 :: h4 :: rest3 =>
              if isHexDigit h1 && isHexDigit h2 && isHexDigit h3 && isHexDigit h4 then
                jsonStringRest fuel rest3
              else none
            | _ => none
          else none
      else if c.toNat < 32 then none
      else jsonStringRest fuel rest

/-- JSON values, with just enough structure for the checks the source
performs: integer array extraction and syntactic validity.  A number
carries some integer exactly when its literal was a plain integer. -/
inductive JVal where
  | jnull : JVal
  | jbool : Bool → JVal
  | jnum : Option Int → JVal
  | jstr : JVal
  | jarr : List JVal → JVal
  | jobj : JVal

mutual

/-- Parse a JSON value at the head of the input (fueled recursion; the fuel
passed by jsonDoc always suffices because every step consumes input). -/
def jsonValue : Nat → List Char → Option (JVal × List Char)
  | 0, _ => none
  | Nat.succ fuel, cs =>
    match cs with
    | [] => none
    | c :: rest =>
      if c = '"' then
        match jsonStringRest (fuel + 1) rest with
        | some rest2 => some (JVal.jstr, rest2)
        | none => none
      else if c = braceL then
        let cs1 := skipWs rest
        match cs1 with
        | c1 :: rest2 => if c1 = braceR then some (JVal.jobj, rest2) else jsonMembers fuel cs1
        | [] => none
      else if c = '[' then
        let cs1 := skipWs rest
        match cs1 with
        | ']' :: rest2 => some (JVal.jarr [], rest2)
        | _ =>
          match jsonElems fuel cs1 with
          | some (xs, rest2) => some (JVal.jarr xs, rest2)
          | none => none
      else if c = 't' then
        match rest with
        | 'r' :: 'u' :: 'e' :: rest2 => some (JVal.jbool true, rest2)
        | _ => none
      else if c = 'f' then
        match rest with
        | 'a' :: 'l' :: 's' :: 'e' :: rest2 => some (JVal.jbool false, rest2)
        | _ => none
      else if c = 'n' then
        match rest with
        | 'u' :: 'l' :: 'l' :: rest2 => some (JVal.jnull, rest2)
        | _ => none
      else
        match jsonNumber cs with
        | some (v, rest2) => some (JVal.jnum v, rest2)
        | none => none

def jsonElems : Nat → List Char → Option (List JVal × List Char)
  | 0, _ => none
  | Nat.succ fuel, cs =>
    match jsonValue fuel cs with
    | none => none
    | some (v, rest) =>
      match skipWs rest with
      | ',' :: rest2 =>
        match jsonElems fuel (skipWs rest2) with
        | some (xs, rest3) => some (v :: xs, rest3)
        | none => none
      | ']' :: rest2 => some ([v], rest2)
      | _ => none

def jsonMembers : Nat → List Char → Option (JVal × List Char)
  | 0, _ => none
  | Nat.succ fuel, cs =>
    match cs with
    | '"' :: rest =>
      match jsonStringRest (fuel + 1) rest with
      | some rest1 =>
        match skipWs rest1 with
        | ':' :: rest2 =>
          match jsonValue fuel (skipWs rest2) with
          | none => none
          | some (_, rest3) =>
            match skipWs rest3 with
            | ',' :: rest4 => jsonMembers fuel (skipWs rest4)
            | c :: rest4 => if c = braceR then some (JVal.jobj, rest4) else none
            | [] => none
        | _ => none
      | none => none
    | _ => none

end

/-- Model of JSON.parse applied to a whole string: some value on success,
none when JSON.parse would throw a SyntaxError. -/
def jsonDoc (s : String) : Option JVal :=
  match jsonValue (s.data.length + 2) (skipWs s.data) with
  | some (v, rest) => if (skipWs rest).isEmpty then some v else none
  | none => none

/-- True exactly when JSON.parse succeeds on the string. -/
def jsonValid (s : String) : Bool :=
  (jsonDoc s).isSome

/-- Integer extracted from a JSON value that is a plain integer literal. -/
def jvalInt : JVal → Option Int
  | JVal.jnum (some i) => some i
  | _ => none

/-- The string parsed as a JSON array of plain integer literals.  This is
the conforming domain for AvailableSlots and PreferredPhases values. -/
def jsonIntArray (s : String) : Option (List Int) :=
  match jsonDoc s with
  | some (JVal.jarr xs) => xs.mapM jvalInt
  | _ => none

/-- Model of parseInt on an already trimmed decimal string: optional sign
followed by at least one digit; NaN is none.  (The source always trims its
argument first; hexadecimal auto-detection is outside the modelled domain,
the range strings the source feeds here are plain decimals.) -/
def jsParseInt (s : String) : Option Int :=
  let cs := skipWs s.data
  let signSplit : Int × List Char :=
    match cs with
    | c :: r => if c = '-' then (-1, r) else if c = '+' then (1, r) else (1, cs)
    | [] => (1, cs)
  let ds := (decDigits signSplit.2).1
  if ds.isEmpty then none else some (signSplit.1 * (digitsToNat ds : Int))

/-- Model of the JavaScript Number conversion on a string, for plain decimal
literals: surrounding whitespace is ignored, the empty string is 0, an
optional sign is followed by digits with an optional fraction part; anything
else (including the qualification level vocabulary words) is NaN, which is
none here.  Exponent and hexadecimal forms are outside the modelled domain. -/
def jsNumberQ (s : String) : Option ℚ :=
  let cs := (skipWs (skipWs s.data).reverse).reverse
  if cs.isEmpty then some 0
  else
    let signSplit : ℚ × List Char :=
      match cs with
      | c :: r => if c = '-' then (-1, r) else if c = '+' then (1, r) else (1, cs)
      | [] => (1, cs)
    let ip := (decDigits signSplit.2).1
    let rest := (decDigits signSplit.2).2
    match rest with
    | [] => if ip.isEmpty then none else some (signSplit.1 * (digitsToNat ip : ℚ))
    | c :: r =>
      if c = '.' then
        let fp := (decDigits r).1
        if (decDigits r).2.isEmpty && (!ip.isEmpty || !fp.isEmpty) then
          some (signSplit.1 * ((digitsToNat ip : ℚ) + (digitsToNat fp : ℚ) / ((10 : ℚ) ^ fp.length)))
        else none
      else none

/-- The inclusive integer range from a to b, as built by Array.from with
length b - a + 1; an empty list when the length is not positive (the
ToLength conversion of a negative or NaN length is 0). -/
def rangeFromTo (a b : Int) : List Int :=
  (List.range (b - a + 1).toNat).map (fun i => a + (i : Int))

/-- Split a character list on a separator character, with JavaScript split
semantics: the empty input yields one empty token, and adjacent separators
yield empty tokens. -/
def splitChar (sep : Char) : List Char → List (List Char)
  | [] => [[]]
  | c :: cs =>
    let r := splitChar sep cs
    if c = sep then [] :: r
    else
      match r with
      | t :: ts => (c :: t) :: ts
      | [] => [[c]]

/-- Model of split on a one character separator (every split the source
performs uses a one character separator). -/
def jsSplit (s : String) (sep : Char) : List String :=
  (splitChar sep s.data).map (fun cs => String.mk cs)

/-- Drop the whitespace characters at both ends, the trim model. -/
def trimChars (cs : List Char) : List Char :=
  ((cs.dropWhile Char.isWhitespace).reverse.dropWhile Char.isWhitespace).reverse

/-- Model of String.prototype.trim (for the ASCII whitespace the modelled
data contains). -/
def jsTrim (s : String) : String :=
  String.mk (trimChars s.data)

/-- Model of String.prototype.toLowerCase (ASCII case folding, which
covers the modelled tag and keyword vocabulary). -/
def jsToLower (s : String) : String :=
  String.mk (s.data.map Char.toLower)

/-- Join string parts with a separator, the Array.prototype.join model. -/
def jsJoin (sep : String) : List String → String
  | [] => ""
  | [x] => x
  | x :: y :: xs => x ++ sep ++ jsJoin sep (y :: xs)

/-- Split a comma separated field and trim every token, exactly the
split(",").map(trim) idiom used throughout the source.  Empty tokens are
kept, matching JavaScript split semantics. -/
def splitTrim (s : String) : List String :=
  (jsSplit s ',').map jsTrim

/-- Does the needle occur as a contiguous subsequence starting at the head? -/
def startsWithSeq : List Char → List Char → Bool
  | [], _ => true
  | _ :: _, [] => false
  | a :: as, b :: bs => a = b && startsWithSeq as bs

/-- Does the needle occur contiguously anywhere in the haystack? -/
def containsSeq (needle : List Char) : List Char → Bool
  | [] => needle.isEmpty
  | c :: rest => startsWithSeq needle (c :: rest) || containsSeq needle rest

/-- Model of String.prototype.includes. -/
def jsIncludes (s sub : String) : Bool :=
  containsSeq sub.data s.data

/-- Deduplicate keeping the first occurrence of each element, matching the
insertion order of JavaScript object keys. -/
def dedupFirstAux [DecidableEq α] : List α → List α → List α
  | [], _ => []
  | x :: rest, seen =>
    if seen.contains x then dedupFirstAux rest seen
    else x :: dedupFirstAux rest (x :: seen)

/-- Deduplicate a list keeping first occurrences. -/
def dedupFirst [DecidableEq α] (l : List α) : List α :=
  dedupFirstAux l []

/-- Enumeration order of the keys of a JavaScript object keyed by the given
integers: deduplicated and ascending.  Faithful for keys that are array
indices (non-negative, below 2^32 - 1), which covers every phase number the
source can build. -/
def jsIntKeys (ps : List Int) : List Int :=
  List.insertionSort (fun a b => a ≤ b) (dedupFirst ps)

/-- Stable sort by a boolean comparator-derived relation: an element stays
before another exactly when le answers true, matching the stable
Array.prototype.sort of ES2019+ for a consistent comparator. -/
def jsSortBy (le : α → α → Bool) (l : List α) : List α :=
  List.insertionSort (fun a b => le a b = true) l

/-- Model of slice(0, e) on an array: a non-negative end index takes at most
e elements, a negative end index counts back from the end. -/
def jsSliceTo (l : List α) (e : Int) : List α :=
  if e < 0 then l.take ((l.length : Int) + e).toNat else l.take e.toNat

/-- The body of the argument-maximum reduce idiom the source uses twice:
keep the incoming element only when its measure is strictly larger. -/
def pickMax (f : α → Nat) (best x : α) : α :=
  if f x > f best then x else best

namespace DA

/-- Severity of a validation finding. -/
inductive Sev where
  | error : Sev
  | warning : Sev
  | info : Sev
deriving DecidableEq, Repr

/-- Raw client record, fields as in the Client interface of the source. -/
structure Client where
  ClientID : String
  ClientName : String
  PriorityLevel : Int
  RequestedTaskIDs : String
  GroupTag : String
  AttributesJSON : String
deriving DecidableEq, Repr

/-- Raw worker record; QualificationLevel is a string in the source data
model (numeric or one of a text vocabulary). -/
structure Worker where
  WorkerID : String
  WorkerName : String
  Skills : String
  AvailableSlots : String
  MaxLoadPerPhase : Int
  WorkerGroup : String
  QualificationLevel : String
deriving DecidableEq, Repr

/-- Raw task record. -/
structure Task where
  TaskID : String
  TaskName : String
  Category : String
  Duration : Int
  RequiredSkills : String
  PreferredPhases : String
  MaxConcurrent : Int
deriving DecidableEq, Repr

/-- Business rule, restricted to the fields the modelled components read
(the structured ruleConfig payload and the creation date are consumed by no
modelled code path). -/
structure BusinessRule where
  id : String
  name : String
  description : String
  naturalLanguage : String
  ruleType : String
  isActive : Bool
deriving DecidableEq, Repr

/-- Priority weight record. -/
structure Priority where
  id : String
  name : String
  weight : ℚ
  description : String
  category : String
deriving DecidableEq, Repr

/-- A validation finding.  The source makes suggestion and validationType
optional but every finding produced by the modelled checks fills both. -/
structure ValidationError where
  id : String
  row : Int
  column : String
  message : String
  severity : Sev
  suggestion : String
  validationType : String
deriving DecidableEq, Repr

/-- The validation summary returned by validateData.  The lastRun wall
clock timestamp of the source is outside the modelled state. -/
structure ValidationSummary where
  totalErrors : Nat
  totalWarnings : Nat
  totalInfo : Nat
  passedValidations : List String
  failedValidations : List String
  validationsPassed : Bool
  errors : List ValidationError
deriving DecidableEq, Repr

/-- Client with its list and JSON fields parsed. -/
structure ParsedClient where
  ClientID : String
  ClientName : String
  PriorityLevel : Int
  RequestedTaskIDs : List String
  GroupTag : String
  AttributesJSON : JVal

/-- Worker with its list fields parsed. -/
structure ParsedWorker where
  WorkerID : String
  WorkerName : String
  Skills : List String
  AvailableSlots : List Int
  MaxLoadPerPhase : Int
  WorkerGroup : String
  QualificationLevel : String

/-- Task with its list fields parsed. -/
structure ParsedTask where
  TaskID : String
  TaskName : String
  Category : String
  Duration : Int
  RequiredSkills : List String
  PreferredPhases : List Int
  MaxConcurrent : Int

namespace Gemini

/-- GeminiProvider.parseSlots: JSON.parse with an empty list on failure. -/
def parseSlots (slots : String) : List Int :=
  (jsonIntArray slots).getD []

/-- GeminiProvider.parsePhases: a string containing a hyphen is read as an
inclusive range via parseInt on the two parts around the first hyphen;
otherwise JSON.parse; any failure yields the empty list. -/
def parsePhases (phases : String) : List Int :=
  if jsIncludes phases ("-") then
    match jsSplit phases '-' with
    | p1 :: p2 :: _ =>
      match jsParseInt (jsTrim p1), jsParseInt (jsTrim p2) with
      | some a, some b => rangeFromTo a b
      | _, _ => []
    | _ => []
  else (jsonIntArray phases).getD []

/-- GeminiProvider.safeJsonParse: the parsed value, or an empty object. -/
def safeJsonParse (json : String) : JVal :=
  (jsonDoc json).getD JVal.jobj

/-- GeminiProvider.parseClient. -/
def parseClient (client : Client) : ParsedClient :=
  { ClientID := client.ClientID
    ClientName := client.ClientName
    PriorityLevel := client.PriorityLevel
    RequestedTaskIDs := splitTrim client.RequestedTaskIDs
    GroupTag := client.GroupTag
    AttributesJSON := safeJsonParse client.AttributesJSON }

/-- GeminiProvider.parseWorker. -/
def parseWorker (worker : Worker) : ParsedWorker :=
  { WorkerID := worker.WorkerID
    WorkerName := worker.WorkerName
    Skills := splitTrim worker.Skills
    AvailableSlots := parseSlots worker.AvailableSlots
    MaxLoadPerPhase := worker.MaxLoadPerPhase
    WorkerGroup := worker.WorkerGroup
    QualificationLevel := worker.QualificationLevel }

/-- GeminiProvider.parseTask. -/
def parseTask (task : Task) : ParsedTask :=
  { TaskID := task.TaskID
    TaskName := task.TaskName
    Category := task.Category
    Duration := task.Duration
    RequiredSkills := splitTrim task.RequiredSkills
    PreferredPhases := parsePhases task.PreferredPhases
    MaxConcurrent := task.MaxConcurrent }

/-- GeminiProvider.validateRequiredColumns.  The source reads
Object.keys of the first record of each collection; in this typed embedding
every record carries all of its columns, so the check can never fire (and,
in the source, the worker and task column checks are an unimplemented
comment in any case). -/
def validateRequiredColumns (_clients : List Client) (_workers : List Worker)
    (_tasks : List Task) : List ValidationError :=
  []

/-- Recursion of validateDuplicateIds over the client list, carrying the
set of ids seen so far and the current row index. -/
def dupClientErrors : List Client → List String → Nat → List ValidationError
  | [], _, _ => []
  | c :: rest, seen, idx =>
    (if seen.contains c.ClientID then
      [{ id := "duplicate-client-" ++ c.ClientID
         row := (idx : Int)
         column := "ClientID"
         message := "Duplicate ClientID: " ++ c.ClientID
         severity := Sev.error
         suggestion := "Use a unique ClientID"
         validationType := "duplicate_id" }]
    else []) ++ dupClientErrors rest (c.ClientID :: seen) (idx + 1)

/-- GeminiProvider.validateDuplicateIds.  The source only implements the
duplicate check for ClientID; the worker and task checks are a comment
reading: Similar checks for workers and tasks. -/
def validateDuplicateIds (clients : List Client) (_workers : List Worker)
    (_tasks : List Task) : List ValidationError :=
  dupClientErrors clients [] 0

/-- GeminiProvider.validateMalformedLists: AvailableSlots of each worker
must be syntactically valid JSON (the tasks argument is unused in the
source as well). -/
def validateMalformedLists (workers : List Worker) (_tasks : List Task) :
    List ValidationError :=
  workers.enum.filterMap fun iw =>
    if jsonValid iw.2.AvailableSlots then none
    else some
      { id := "malformed-slots-" ++ iw.2.WorkerID
        row := (iw.1 : Int)
        column := "AvailableSlots"
        message := "Malformed AvailableSlots: " ++ iw.2.AvailableSlots
        severity := Sev.error
        suggestion := "Use valid JSON array format like [1,2,3]"
        validationType := "malformed_list" }

/-- GeminiProvider.validateOutOfRange: client PriorityLevel must lie in
[1,5] and task Duration must be at least 1. -/
def validateOutOfRange (clients : List Client) (tasks : List Task) :
    List ValidationError :=
  (clients.enum.filterMap fun ic =>
    if ic.2.PriorityLevel < 1 || ic.2.PriorityLevel > 5 then some
      { id := "invalid-priority-" ++ ic.2.ClientID
        row := (ic.1 : Int)
        column := "PriorityLevel"
        message := "PriorityLevel must be 1-5, got: " ++ toString ic.2.PriorityLevel
        severity := Sev.error
        suggestion := "Set PriorityLevel to a value between 1 and 5"
        validationType := "out_of_range" }
    else none) ++
  (tasks.enum.filterMap fun it =>
    if it.2.Duration < 1 then some
      { id := "invalid-duration-" ++ it.2.TaskID
        row := (it.1 : Int)
        column := "Duration"
        message := "Duration must be >= 1, got: " ++ toString it.2.Duration
        severity := Sev.error
        suggestion := "Set Duration to 1 or higher"
        validationType := "out_of_range" }
    else none)

/-- GeminiProvider.validateBrokenJson: AttributesJSON must parse. -/
def validateBrokenJson (clients : List Client) : List ValidationError :=
  clients.enum.filterMap fun ic =>
    if jsonValid ic.2.AttributesJSON then none
    else some
      { id := "broken-json-" ++ ic.2.ClientID
        row := (ic.1 : Int)
        column := "AttributesJSON"
        message := "Invalid JSON in AttributesJSON"
        severity := Sev.error
        suggestion := "Fix the JSON syntax"
        validationType := "broken_json" }

/-- GeminiProvider.validateUnknownReferences: every requested task id of a
client must name an existing task. -/
def validateUnknownReferences (clients : List ParsedClient)
    (tasks : List ParsedTask) : List ValidationError :=
  let taskIds := tasks.map (fun t => t.TaskID)
  clients.enum.flatMap fun ic =>
    ic.2.RequestedTaskIDs.filterMap fun taskId =>
      if taskIds.contains taskId then none
      else some
        { id := "unknown-task-" ++ ic.2.ClientID ++ "-" ++ taskId
          row := (ic.1 : Int)
          column := "RequestedTaskIDs"
          message := "Unknown TaskID reference: " ++ taskId
          severity := Sev.error
          suggestion := "Ensure all referenced TaskIDs exist in the tasks data"
          validationType := "unknown_reference" }

/-- GeminiProvider.validateOverloadedWorkers: warn when a worker has fewer
parsed available slots than its MaxLoadPerPhase. -/
def validateOverloadedWorkers (workers : List ParsedWorker) :
    List ValidationError :=
  workers.enum.filterMap fun iw =>
    if (iw.2.AvailableSlots.length : Int) < iw.2.MaxLoadPerPhase then some
      { id := "overloaded-" ++ iw.2.WorkerID
        row := (iw.1 : Int)
        column := "MaxLoadPerPhase"
        message := "Worker has fewer available slots (" ++ toString iw.2.AvailableSlots.length ++
          ") than MaxLoadPerPhase (" ++ toString iw.2.MaxLoadPerPhase ++ ")"
        severity := Sev.warning
        suggestion := "Reduce MaxLoadPerPhase or increase AvailableSlots"
        validationType := "overloaded_worker" }
    else none

/-- Total demand a phase receives: task durations summed once per occurrence
of the phase in each parsed PreferredPhases list, exactly as the incremental
record updates of the source accumulate it. -/
def phaseDemand (tasks : List ParsedTask) (p : Int) : Int :=
  (tasks.map (fun t => (t.PreferredPhases.count p : Int) * t.Duration)).sum

/-- Total capacity a phase offers, accumulated from worker MaxLoadPerPhase
once per occurrence of the phase in each parsed AvailableSlots list. -/
def phaseCapacity (workers : List ParsedWorker) (p : Int) : Int :=
  (workers.map (fun w => (w.AvailableSlots.count p : Int) * w.MaxLoadPerPhase)).sum

/-- GeminiProvider.validatePhaseSaturation: for every phase appearing in
some parsed PreferredPhases list (enumerated in ascending object key
order), demand above capacity is an error.  Phase numbers produced by the
phase parser are never negative, so the ascending key model is faithful. -/
def validatePhaseSaturation (workers : List ParsedWorker)
    (tasks : List ParsedTask) : List ValidationError :=
  (jsIntKeys (tasks.flatMap (fun t => t.PreferredPhases))).filterMap fun p =>
    let demand := phaseDemand tasks p
    let capacity := phaseCapacity workers p
    if demand > capacity then some
      { id := "phase-saturation-" ++ toString p
        row := -1
        column := "Phase"
        message := "Phase " ++ toString p ++ " is oversaturated: demand " ++
          toString demand ++ " > capacity " ++ toString capacity
        severity := Sev.error
        suggestion := "Add more workers to this phase or reduce task durations"
        validationType := "phase_saturation" }
    else none

/-- GeminiProvider.validateSkillCoverage: every required skill of every
task must be held by some worker, by exact string comparison on the parsed
skill tags (a Set.has test in the source). -/
def validateSkillCoverage (workers : List ParsedWorker)
    (tasks : List ParsedTask) : List ValidationError :=
  let availableSkills := workers.flatMap (fun w => w.Skills)
  tasks.enum.flatMap fun it =>
    (it.2.RequiredSkills.filter (fun skill => !(availableSkills.contains skill))).map fun skill =>
      { id := "missing-skill-" ++ it.2.TaskID ++ "-" ++ skill
        row := (it.1 : Int)
        column := "RequiredSkills"
        message := "No worker has required skill: " ++ skill
        severity := Sev.error
        suggestion := "Add a worker with this skill or modify the task requirements"
        validationType := "skill_coverage" }

/-- GeminiProvider.validateMaxConcurrency: warn when MaxConcurrent exceeds
the number of workers holding all required skills (exact tag match on the
parsed lists). -/
def validateMaxConcurrency (workers : List ParsedWorker)
    (tasks : List ParsedTask) : List ValidationError :=
  tasks.enum.filterMap fun it =>
    let qualifiedWorkers := workers.filter fun worker =>
      it.2.RequiredSkills.all fun skill => worker.Skills.contains skill
    if it.2.MaxConcurrent > (qualifiedWorkers.length : Int) then some
      { id := "max-concurrency-" ++ it.2.TaskID
        row := (it.1 : Int)
        column := "MaxConcurrent"
        message := "MaxConcurrent (" ++ toString it.2.MaxConcurrent ++
          ") exceeds qualified workers (" ++ toString qualifiedWorkers.length ++ ")"
        severity := Sev.warning
        suggestion := "Reduce MaxConcurrent or add more qualified workers"
        validationType := "max_concurrency" }
    else none

/-- One step of the check battery: append the findings and record the check
name in the failed or passed list. -/
def checkStep (acc : List ValidationError × List String × List String)
    (name : String) (found : List ValidationError) :
    List ValidationError × List String × List String :=
  if found.isEmpty then (acc.1, acc.2.1 ++ [name], acc.2.2)
  else (acc.1 ++ found, acc.2.1, acc.2.2 ++ [name])

/-- GeminiProvider.validateData: the fixed ordered battery of checks and
the summary assembled from the accumulated findings.  The circular co-run
and conflicting rule checks are unimplemented in the source (a TODO) and
count as passed. -/
def validateData (clients : List Client) (workers : List Worker)
    (tasks : List Task) : ValidationSummary :=
  let parsedClients := clients.map parseClient
  let parsedWorkers := workers.map parseWorker
  let parsedTasks := tasks.map parseTask
  let acc0 : List ValidationError × List String × List String := ([], [], [])
  let acc1 := checkStep acc0 ("missing_required_columns") (validateRequiredColumns clients workers tasks)
  let acc2 := checkStep acc1 ("duplicate_ids") (validateDuplicateIds clients workers tasks)
  let acc3 := checkStep acc2 ("malformed_lists") (validateMalformedLists workers tasks)
  let acc4 := checkStep acc3 ("out_of_range_values") (validateOutOfRange clients tasks)
  let acc5 := checkStep acc4 ("broken_json") (validateBrokenJson clients)
  let acc6 := (acc5.1, acc5.2.1 ++ ["circular_corun_groups"], acc5.2.2)
  let acc6b := checkStep (acc6.1, acc6.2.1, acc6.2.2) ("unknown_references") (validateUnknownReferences parsedClients parsedTasks)
  let acc7 := (acc6b.1, acc6b.2.1 ++ ["conflicting_rules"], acc6b.2.2)
  let acc8 := checkStep acc7 ("overloaded_workers") (validateOverloadedWorkers parsedWorkers)
  let acc9 := checkStep acc8 ("phase_slot_saturation") (validatePhaseSaturation parsedWorkers parsedTasks)
  let acc10 := checkStep acc9 ("skill_coverage") (validateSkillCoverage parsedWorkers parsedTasks)
  let acc11 := checkStep acc10 ("max_concurrency") (validateMaxConcurrency parsedWorkers parsedTasks)
  let errs := acc11.1
  { totalErrors := (errs.filter (fun e => e.severity = Sev.error)).length
    totalWarnings := (errs.filter (fun e => e.severity = Sev.warning)).length
    totalInfo := (errs.filter (fun e => e.severity = Sev.info)).length
    passedValidations := acc11.2.1
    failedValidations := acc11.2.2
    validationsPassed := (errs.filter (fun e => e.severity = Sev.error)).length = 0
    errors := errs }

end Gemini


/-- One allocation result, as emitted by the allocation engine. -/
structure AllocationResult where
  taskId : String
  taskName : String
  assignedWorkerIds : List String
  assignedWorkerNames : List String
  clientId : String
  clientName : String
  phase : Int
  priority : Int
  reasoning : String
  confidence : ℚ
deriving DecidableEq, Repr

/-- The aggregate allocation summary.  The worker utilization, phase and
priority distribution records are association lists in key insertion
order. -/
structure AllocationSummary where
  totalTasks : Nat
  assignedTasks : Nat
  unassignedTasks : Nat
  workerUtilization : List (String × Int)
  phaseDistribution : List (Int × Nat)
  priorityDistribution : List (Int × Nat)
  executedRules : List String
  warnings : List String
  allocations : List AllocationResult
deriving DecidableEq, Repr

/-- The allocation engine state as set up by the constructor, which keeps
only the active rules. -/
structure AllocationEngine where
  clients : List Client
  workers : List Worker
  tasks : List Task
  rules : List BusinessRule
  priorities : List Priority
deriving DecidableEq, Repr

/-- The AllocationEngine constructor: copies the inputs and filters the
rule list to the active rules. -/
def mkAllocationEngine (clients : List Client) (workers : List Worker)
    (tasks : List Task) (rules : List BusinessRule)
    (priorities : List Priority) : AllocationEngine :=
  { clients := clients
    workers := workers
    tasks := tasks
    rules := rules.filter (fun rule => rule.isActive)
    priorities := priorities }

namespace AllocationEngine

/-- AllocationEngine.parseSlots: JSON.parse, empty on failure. -/
def parseSlots (slots : String) : List Int :=
  (jsonIntArray slots).getD []

/-- AllocationEngine.parsePhases: hyphen strings are read as inclusive
ranges; otherwise JSON.parse; a parse failure yields the one element list
containing the default phase 1 (unlike the validation side parser, which
yields the empty list). -/
def parsePhases (phases : String) : List Int :=
  if jsIncludes phases ("-") then
    match jsSplit phases '-' with
    | p1 :: p2 :: _ =>
      match jsParseInt (jsTrim p1), jsParseInt (jsTrim p2) with
      | some a, some b => rangeFromTo a b
      | _, _ => []
    | _ => []
  else (jsonIntArray phases).getD [1]

/-- AllocationEngine.getCurrentUtilization: the source body is a bare
return 0 (the running accumulator is never wired in). -/
def getCurrentUtilization (_workerId : String) : Int :=
  0

/-- Does the worker hold every required skill of the task, comparing
trimmed tags case-insensitively?  This is the skill half of the
eligibility filter. -/
def hasAllRequiredSkills (task : Task) (worker : Worker) : Bool :=
  let requiredSkills := splitTrim task.RequiredSkills
  let workerSkills := splitTrim worker.Skills
  requiredSkills.all fun skill => workerSkills.any fun ws => jsToLower ws = jsToLower skill

/-- AllocationEngine.findEligibleWorkers: all required skills held and at
least one parsed available slot. -/
def findEligibleWorkers (E : AllocationEngine) (task : Task) : List Worker :=
  E.workers.filter fun worker =>
    hasAllRequiredSkills task worker && decide ((parseSlots worker.AvailableSlots).length > 0)

/-- Comparator relation of the descending qualification sort: a stays
before b when the comparator Number(b) - Number(a) is nonpositive; a NaN
comparator value counts as 0. -/
def qualDescLe (a b : Worker) : Bool :=
  match jsNumberQ a.QualificationLevel, jsNumberQ b.QualificationLevel with
  | some qa, some qb => decide (qb - qa ≤ 0)
  | _, _ => true

/-- Comparator relation of the ascending qualification sort. -/
def qualAscLe (a b : Worker) : Bool :=
  match jsNumberQ a.QualificationLevel, jsNumberQ b.QualificationLevel with
  | some qa, some qb => decide (qa - qb ≤ 0)
  | _, _ => true

/-- Comparator relation of the workload balancing sort; since the
utilization read always returns 0, every comparison ties. -/
def utilBalanceLe (a b : Worker) : Bool :=
  decide (getCurrentUtilization a.WorkerID - getCurrentUtilization b.WorkerID ≤ 0)

/-- The worker groups in first occurrence order, each group holding its
workers in original order, as built by the reduce over WorkerGroup. -/
def groupsOf (workers : List Worker) : List (List Worker) :=
  (dedupFirst (workers.map (fun w => w.WorkerGroup))).map fun g =>
    workers.filter (fun w => w.WorkerGroup = g)

/-- The first group of maximal size (the reduce with an empty seed keeps
the current group only on a strictly larger size). -/
def largestGroupOf (workers : List Worker) : List Worker :=
  (groupsOf workers).foldl (pickMax List.length) []

/-- AllocationEngine.applySpecificRule: keyword dispatch on the lowercased
rule text.  The first matching branch returns; the high priority branch
falls through to the group branch when the client priority is below 4. -/
def applySpecificRule (rule : BusinessRule) (_task : Task) (client : Client)
    (workers : List Worker) : List Worker :=
  let ruleText := jsToLower rule.naturalLanguage
  if jsIncludes ruleText ("senior") || jsIncludes ruleText ("experienced") || jsIncludes ruleText ("expert") then
    jsSortBy qualDescLe workers
  else if jsIncludes ruleText ("qualification") || jsIncludes ruleText ("level") then
    jsSortBy qualDescLe workers
  else if jsIncludes ruleText ("balance") || jsIncludes ruleText ("distribute") || jsIncludes ruleText ("evenly") then
    jsSortBy utilBalanceLe workers
  else if jsIncludes ruleText ("cost") || jsIncludes ruleText ("budget") || jsIncludes ruleText ("cheap") then
    jsSortBy qualAscLe workers
  else if (jsIncludes ruleText ("high priority") || jsIncludes ruleText ("urgent")) && decide (client.PriorityLevel ≥ 4) then
    jsSortBy qualDescLe workers
  else if jsIncludes ruleText ("group") || jsIncludes ruleText ("team") then
    let largestGroup := largestGroupOf workers
    if largestGroup.length > 1 then largestGroup else workers
  else workers

/-- AllocationEngine.applyBusinessRules: fold the active rules over the
eligible list, then truncate with slice(0, min(MaxConcurrent, length)). -/
def applyBusinessRules (E : AllocationEngine) (task : Task) (client : Client)
    (eligibleWorkers : List Worker) : List Worker :=
  let selectedWorkers := E.rules.foldl
    (fun ws rule => applySpecificRule rule task client ws) eligibleWorkers
  let maxConcurrent := min task.MaxConcurrent (selectedWorkers.length : Int)
  jsSliceTo selectedWorkers maxConcurrent

/-- Number of the given workers whose parsed AvailableSlots contain the
phase: the phase score of selectOptimalPhase. -/
def phaseScore (workers : List Worker) (phase : Int) : Nat :=
  (workers.filter (fun w => (parseSlots w.AvailableSlots).contains phase)).length

/-- AllocationEngine.selectOptimalPhase: score each preferred phase by
worker availability and take the reduce over the score record entries
(ascending key order), seeded with the first preferred phase; an empty
parsed phase list falls back to phase 1. -/
def selectOptimalPhase (task : Task) (workers : List Worker) : Int :=
  match parsePhases task.PreferredPhases with
  | [] => 1
  | p0 :: rest =>
    (jsIntKeys (p0 :: rest)).foldl (pickMax (phaseScore workers)) p0

/-- Average of Number(QualificationLevel) over the workers; none models the
NaN produced by a non-numeric level (or an empty worker list). -/
def avgQualification (workers : List Worker) : Option ℚ :=
  match workers.mapM (fun w => jsNumberQ w.QualificationLevel) with
  | some qs => if workers.length = 0 then none else some (qs.sum / (workers.length : ℚ))
  | none => none

/-- AllocationEngine.generateAllocationReasoning: the sentence list joined
with a period separator and a closing period. -/
def generateAllocationReasoning (task : Task) (client : Client)
    (workers : List Worker) (phase : Int) : String :=
  let r1 := ["Assigned " ++ toString workers.length ++ " worker(s) with required skills: " ++ task.RequiredSkills]
  let r2 := if client.PriorityLevel ≥ 4 then
      r1 ++ ["High priority client (Level " ++ toString client.PriorityLevel ++ ") - assigned senior workers"]
    else r1
  let r3 := if workers.length > 1 then r2 ++ ["Team allocation for better collaboration"] else r2
  let r4 := match avgQualification workers with
    | some q =>
      if q ≥ 8 then r3 ++ ["Senior workers selected for complex task"]
      else if q ≤ 5 then r3 ++ ["Junior workers selected for cost optimization"]
      else r3
    | none => r3
  let r5 := r4 ++ ["Scheduled for Phase " ++ toString phase ++ " based on availability and preferences"]
  jsJoin (". ") r5 ++ "."

/-- AllocationEngine.calculateConfidence: 0.5 base, plus 0.3 for full skill
coverage, 0.2 for full phase availability, 0.1 for no overload, capped at
1. -/
def calculateConfidence (task : Task) (workers : List Worker) (phase : Int) : ℚ :=
  let requiredSkills := splitTrim task.RequiredSkills
  let skillCoverage := workers.all fun worker =>
    let workerSkills := splitTrim worker.Skills
    requiredSkills.all fun skill => workerSkills.any fun ws => jsToLower ws = jsToLower skill
  let c1 : ℚ := if skillCoverage then 1/2 + 3/10 else 1/2
  let phaseAvailability := workers.all fun worker =>
    (parseSlots worker.AvailableSlots).contains phase
  let c2 := if phaseAvailability then c1 + 1/5 else c1
  let notOverloaded := workers.all fun worker =>
    decide (getCurrentUtilization worker.WorkerID + task.Duration ≤ worker.MaxLoadPerPhase)
  let c3 := if notOverloaded then c2 + 1/10 else c2
  min c3 1

/-- AllocationEngine.getPriorityWeight: the weight of the first priority
whose lowercased name contains speed, with a 0.5 default. -/
def getPriorityWeight (E : AllocationEngine) : ℚ :=
  match E.priorities.find? (fun p => jsIncludes (jsToLower p.name) ("speed")) with
  | some p => p.weight
  | none => 1/2

/-- AllocationEngine.wasRuleExecuted: heuristic substring audit of the
reasoning texts against the rule text. -/
def wasRuleExecuted (rule : BusinessRule) (allocations : List AllocationResult) : Bool :=
  let ruleText := jsToLower rule.naturalLanguage
  let firstWord := (jsSplit ruleText ' ').headD ("")
  allocations.any fun allocation =>
    let reason := jsToLower allocation.reasoning
    jsIncludes reason firstWord ||
    (jsIncludes reason ("senior") && jsIncludes ruleText ("senior")) ||
    (jsIncludes reason ("balance") && jsIncludes ruleText ("balance")) ||
    (jsIncludes reason ("cost") && jsIncludes ruleText ("cost"))

/-- One entry of the task queue. -/
structure TaskQueueEntry where
  task : Task
  client : Client
  priority : Int
deriving DecidableEq, Repr

/-- AllocationEngine.buildTaskQueue: for every client, every requested task
id resolving to an existing task is enqueued with the client priority; the
queue is then stably sorted by descending priority times the speed
weight. -/
def buildTaskQueue (E : AllocationEngine) : List TaskQueueEntry :=
  let taskQueue := E.clients.flatMap fun client =>
    (splitTrim client.RequestedTaskIDs).filterMap fun taskId =>
      match E.tasks.find? (fun t => t.TaskID = taskId) with
      | some task => some { task := task, client := client, priority := client.PriorityLevel }
      | none => none
  let w := getPriorityWeight E
  jsSortBy (fun a b => decide ((b.priority : ℚ) * w - (a.priority : ℚ) * w ≤ 0)) taskQueue

/-- AllocationEngine.allocateTask: none when no worker is eligible or the
rule application selects nobody, otherwise the assembled result. -/
def allocateTask (E : AllocationEngine) (entry : TaskQueueEntry) :
    Option AllocationResult :=
  let task := entry.task
  let client := entry.client
  let eligibleWorkers := findEligibleWorkers E task
  if eligibleWorkers.length = 0 then none
  else
    let selectedWorkers := applyBusinessRules E task client eligibleWorkers
    let selectedPhase := selectOptimalPhase task selectedWorkers
    if selectedWorkers.length = 0 then none
    else some
      { taskId := task.TaskID
        taskName := task.TaskName
        assignedWorkerIds := selectedWorkers.map (fun w => w.WorkerID)
        assignedWorkerNames := selectedWorkers.map (fun w => w.WorkerName)
        clientId := client.ClientID
        clientName := client.ClientName
        phase := selectedPhase
        priority := entry.priority
        reasoning := generateAllocationReasoning task client selectedWorkers selectedPhase
        confidence := calculateConfidence task selectedWorkers selectedPhase }

/-- The mutable accumulators of the allocation loop. -/
structure AllocState where
  allocations : List AllocationResult
  warnings : List String
  workerUtilization : List (String × Int)
  phaseDistribution : List (Int × Nat)
  priorityDistribution : List (Int × Nat)
deriving DecidableEq, Repr

/-- Add d to the utilization entry of the given worker id. -/
def bumpUtil (r : List (String × Int)) (k : String) (d : Int) : List (String × Int) :=
  r.map (fun kv => if kv.1 = k then (kv.1, kv.2 + d) else kv)

/-- Increment the count stored under the key, inserting the key at the end
when absent. -/
def bumpCount (r : List (Int × Nat)) (k : Int) : List (Int × Nat) :=
  if r.any (fun kv => kv.1 = k) then
    r.map (fun kv => if kv.1 = k then (kv.1, kv.2 + 1) else kv)
  else r ++ [(k, 1)]

/-- The body of the allocation loop for one queue entry. -/
def allocStep (E : AllocationEngine) (st : AllocState) (entry : TaskQueueEntry) :
    AllocState :=
  match allocateTask E entry with
  | some allocation =>
    { allocations := st.allocations ++ [allocation]
      warnings := st.warnings
      workerUtilization := allocation.assignedWorkerIds.foldl
        (fun r wid => bumpUtil r wid entry.task.Duration) st.workerUtilization
      phaseDistribution := bumpCount st.phaseDistribution allocation.phase
      priorityDistribution := bumpCount st.priorityDistribution allocation.priority }
  | none =>
    { st with warnings := st.warnings ++ ["Could not allocate task: " ++ entry.task.TaskName] }

/-- AllocationEngine.executeAllocation: initialize the utilization record
over the workers, fold the allocation loop over the queue, and assemble
the summary together with the rule execution audit. -/
def executeAllocation (E : AllocationEngine) : AllocationSummary :=
  let initUtil : List (String × Int) := (dedupFirst (E.workers.map (fun w => w.WorkerID))).map (fun wid => (wid, 0))
  let taskQueue := buildTaskQueue E
  let final := taskQueue.foldl (allocStep E)
    { allocations := [], warnings := [], workerUtilization := initUtil
      phaseDistribution := [], priorityDistribution := [] }
  let executedRules := (E.rules.filter (fun rule => wasRuleExecuted rule final.allocations)).map (fun rule => rule.name)
  { totalTasks := taskQueue.length
    assignedTasks := final.allocations.length
    unassignedTasks := taskQueue.length - final.allocations.length
    workerUtilization := final.workerUtilization
    phaseDistribution := final.phaseDistribution
    priorityDistribution := final.priorityDistribution
    executedRules := executedRules
    warnings := final.warnings
    allocations := final.allocations }

/-- The allocation loop with the engine state threaded explicitly through
every step.  The only in place operations the source performs are
Array.prototype.sort calls on arrays freshly produced by filter or by a
spread copy, so no step writes to the engine fields; each step returns the
engine exactly as the source leaves it. -/
def allocStepRW (Est : AllocationEngine × AllocState) (entry : TaskQueueEntry) :
    AllocationEngine × AllocState :=
  (Est.1, allocStep Est.1 Est.2 entry)

/-- executeAllocation with the engine state threaded through the run,
returning the summary together with the engine state as the run leaves
it. -/
def executeAllocationRW (E : AllocationEngine) : AllocationSummary × AllocationEngine :=
  let initUtil : List (String × Int) := (dedupFirst (E.workers.map (fun w => w.WorkerID))).map (fun wid => (wid, 0))
  let taskQueue := buildTaskQueue E
  let finalPair := taskQueue.foldl allocStepRW
    (E, { allocations := [], warnings := [], workerUtilization := initUtil
          phaseDistribution := [], priorityDistribution := [] })
  let E1 := finalPair.1
  let final := finalPair.2
  let executedRules := (E1.rules.filter (fun rule => wasRuleExecuted rule final.allocations)).map (fun rule => rule.name)
  ({ totalTasks := taskQueue.length
     assignedTasks := final.allocations.length
     unassignedTasks := taskQueue.length - final.allocations.length
     workerUtilization := final.workerUtilization
     phaseDistribution := final.phaseDistribution
     priorityDistribution := final.priorityDistribution
     executedRules := executedRules
     warnings := final.warnings
     allocations := final.allocations }, E1)

/-- The workers of the engine holding every required skill of the task
under the case-insensitive tag match of the eligibility filter: the
referent of the skill-qualified worker count in the capacity property. -/
def skillQualifiedWorkers (E : AllocationEngine) (task : Task) : List Worker :=
  E.workers.filter (hasAllRequiredSkills task)

end AllocationEngine


namespace AllocationEngine

/-- The worker list an allocateTask call assigns from: the eligible workers
after rule application and the concurrency cap. -/
def selectedFor (E : AllocationEngine) (entry : TaskQueueEntry) : List Worker :=
  applyBusinessRules E entry.task entry.client (findEligibleWorkers E entry.task)

end AllocationEngine

/-- Placeholder result used as the default of a list lookup. -/
def noResult : AllocationResult :=
  { taskId := "", taskName := "", assignedWorkerIds := [], assignedWorkerNames := []
    clientId := "", clientName := "", phase := 0, priority := 0, reasoning := "", confidence := 0 }

/-- Concrete client used by the capacity witness. -/
def clientW1 : Client :=
  { ClientID := "C1", ClientName := "Acme", PriorityLevel := 3, RequestedTaskIDs := "T1"
    GroupTag := "G", AttributesJSON := "\x7b\x7d" }

/-- Concrete worker used by the capacity witness. -/
def workerW1 : Worker :=
  { WorkerID := "W1", WorkerName := "Ann", Skills := "s", AvailableSlots := "[1]"
    MaxLoadPerPhase := 2, WorkerGroup := "G", QualificationLevel := "6" }

/-- Concrete task used by the capacity witness. -/
def taskW1 : Task :=
  { TaskID := "T1", TaskName := "Build", Category := "c", Duration := 1
    RequiredSkills := "s", PreferredPhases := "[1]", MaxConcurrent := 1 }

/-- Concrete engine used by the capacity witness. -/
def engineW1 : AllocationEngine :=
  mkAllocationEngine [clientW1] [workerW1] [taskW1] [] []

/-- The single allocation result of the capacity witness engine. -/
def resultW1 : AllocationResult :=
  ((AllocationEngine.executeAllocation engineW1).allocations).getD 0 noResult

/-- Client of the phase feasibility counterexample. -/
def clientX2 : Client :=
  { ClientID := "C1", ClientName := "Acme", PriorityLevel := 3, RequestedTaskIDs := "T1"
    GroupTag := "G", AttributesJSON := "\x7b\x7d" }

/-- Worker of the phase feasibility counterexample: eligible (skill held,
one available slot) but not available in the only preferred phase. -/
def workerX2 : Worker :=
  { WorkerID := "W1", WorkerName := "Ann", Skills := "s", AvailableSlots := "[1]"
    MaxLoadPerPhase := 2, WorkerGroup := "G", QualificationLevel := "6" }

/-- Task of the phase feasibility counterexample: one preferred phase in
which no eligible worker is available. -/
def taskX2 : Task :=
  { TaskID := "T1", TaskName := "Build", Category := "c", Duration := 1
    RequiredSkills := "s", PreferredPhases := "[2]", MaxConcurrent := 1 }

/-- Engine of the phase feasibility counterexample. -/
def engineX2 : AllocationEngine :=
  mkAllocationEngine [clientX2] [workerX2] [taskX2] [] []

/-- Worker of the phase feasibility witness, available in the preferred
phase. -/
def workerW2 : Worker :=
  { WorkerID := "W1", WorkerName := "Ann", Skills := "s", AvailableSlots := "[2]"
    MaxLoadPerPhase := 2, WorkerGroup := "G", QualificationLevel := "6" }

/-- Task of the phase feasibility witness. -/
def taskW2 : Task :=
  { TaskID := "T1", TaskName := "Build", Category := "c", Duration := 1
    RequiredSkills := "s", PreferredPhases := "[2]", MaxConcurrent := 1 }

/-- Engine of the phase feasibility witness. -/
def engineW2 : AllocationEngine :=
  mkAllocationEngine [clientW1] [workerW2] [taskW2] [] []

/-- The single allocation result of the phase feasibility witness engine. -/
def resultW2 : AllocationResult :=
  ((AllocationEngine.executeAllocation engineW2).allocations).getD 0 noResult

/-- Engine of the determinism witness. -/
def engineW3 : AllocationEngine :=
  mkAllocationEngine [clientW1] [workerW1] [taskW1]
    [{ id := "r1", name := "Balance", description := "balance load"
       naturalLanguage := "balance the load evenly", ruleType := "custom", isActive := true }]
    [{ id := "p1", name := "Speed", weight := 7/10, description := "", category := "efficiency" }]

/-- First worker of the duplicate id scenario. -/
def workerD4a : Worker :=
  { WorkerID := "W001", WorkerName := "Ann", Skills := "s", AvailableSlots := "[1,2]"
    MaxLoadPerPhase := 1, WorkerGroup := "G", QualificationLevel := "5" }

/-- Second worker of the duplicate id scenario, sharing the id W001. -/
def workerD4b : Worker :=
  { WorkerID := "W001", WorkerName := "Bob", Skills := "t", AvailableSlots := "[1]"
    MaxLoadPerPhase := 1, WorkerGroup := "G", QualificationLevel := "7" }

/-- Worker of the skill coverage counterexample, holding the skill with an
upper case initial. -/
def workerX5 : Worker :=
  { WorkerID := "W1", WorkerName := "Ann", Skills := "Rust", AvailableSlots := "[1]"
    MaxLoadPerPhase := 1, WorkerGroup := "G", QualificationLevel := "5" }

/-- Task of the skill coverage counterexample, requiring the same skill in
lower case. -/
def taskX5 : Task :=
  { TaskID := "T5", TaskName := "Port", Category := "c", Duration := 1
    RequiredSkills := "rust", PreferredPhases := "[1]", MaxConcurrent := 1 }

/-- Worker of the phase tie-break counterexample, available in phases 2
and 3. -/
def workerX6 : Worker :=
  { WorkerID := "W1", WorkerName := "Ann", Skills := "s", AvailableSlots := "[2,3]"
    MaxLoadPerPhase := 2, WorkerGroup := "G", QualificationLevel := "6" }

/-- Task of the phase tie-break counterexample: preferred phase order 1, 3,
2, where phases 3 and 2 tie on the maximal score. -/
def taskX6 : Task :=
  { TaskID := "T6", TaskName := "Scan", Category := "c", Duration := 1
    RequiredSkills := "s", PreferredPhases := "[1,3,2]", MaxConcurrent := 1 }

/-- Task of the phase selection witness. -/
def taskW6 : Task :=
  { TaskID := "T6", TaskName := "Scan", Category := "c", Duration := 1
    RequiredSkills := "s", PreferredPhases := "[2,3]", MaxConcurrent := 1 }

/-- Worker of the phase selection witness. -/
def workerW6 : Worker :=
  { WorkerID := "W1", WorkerName := "Ann", Skills := "s", AvailableSlots := "[3]"
    MaxLoadPerPhase := 2, WorkerGroup := "G", QualificationLevel := "6" }

/-- Worker of the parse degradation witness, with an unparseable slot
string. -/
def workerW7 : Worker :=
  { WorkerID := "W1", WorkerName := "Ann", Skills := "s", AvailableSlots := "oops"
    MaxLoadPerPhase := 2, WorkerGroup := "G", QualificationLevel := "6" }

/-- Task of the parse degradation witness, with an unparseable phase
string. -/
def taskW7 : Task :=
  { TaskID := "T7", TaskName := "Fix", Category := "c", Duration := 1
    RequiredSkills := "s", PreferredPhases := "oops", MaxConcurrent := 1 }

/-- Engine of the parse degradation witness. -/
def engineW7 : AllocationEngine :=
  mkAllocationEngine [] [workerW7] [taskW7] [] []

/-- Client of the list parsing counterexample, with an empty token between
two commas. -/
def clientX8 : Client :=
  { ClientID := "C8", ClientName := "Acme", PriorityLevel := 3, RequestedTaskIDs := "a,,b"
    GroupTag := "G", AttributesJSON := "\x7b\x7d" }


theorem jsSortBy_perm (le : α → α → Bool) (l : List α) : (jsSortBy le l).Perm l :=
  List.perm_insertionSort _ l

theorem jsSortBy_length (le : α → α → Bool) (l : List α) :
    (jsSortBy le l).length = l.length :=
  (jsSortBy_perm le l).length_eq

theorem mem_dedupFirstAux [DecidableEq α] (l seen : List α) (a : α) :
    a ∈ dedupFirstAux l seen ↔ a ∈ l ∧ a ∉ seen := by
  induction l generalizing seen with
  | nil => simp [dedupFirstAux]
  | cons x xs ih =>
    unfold dedupFirstAux
    by_cases hx : seen.contains x = true
    · rw [if_pos hx, ih]
      have hxs : x ∈ seen := List.elem_iff.mp hx
      constructor
      · rintro ⟨h1, h2⟩
        exact ⟨List.mem_cons_of_mem _ h1, h2⟩
      · rintro ⟨h1, h2⟩
        rcases List.mem_cons.mp h1 with rfl | h1b
        · exact absurd hxs h2
        · exact ⟨h1b, h2⟩
    · rw [if_neg hx]
      have hxs : x ∉ seen := fun h => hx (List.elem_iff.mpr h)
      rw [List.mem_cons, ih]
      constructor
      · rintro (rfl | ⟨h1, h2⟩)
        · exact ⟨by simp, hxs⟩
        · exact ⟨List.mem_cons_of_mem _ h1, fun hmem => h2 (List.mem_cons_of_mem _ hmem)⟩
      · rintro ⟨h1, h2⟩
        by_cases hax : a = x
        · exact Or.inl hax
        · rcases List.mem_cons.mp h1 with rfl | h1b
          · exact absurd rfl hax
          · refine Or.inr ⟨h1b, fun hmem => ?_⟩
            rcases List.mem_cons.mp hmem with rfl | hm2
            · exact hax rfl
            · exact h2 hm2

theorem mem_dedupFirst [DecidableEq α] (l : List α) (a : α) :
    a ∈ dedupFirst l ↔ a ∈ l := by
  simp [dedupFirst, mem_dedupFirstAux]

theorem mem_jsIntKeys (ps : List Int) (a : Int) : a ∈ jsIntKeys ps ↔ a ∈ ps := by
  rw [jsIntKeys, (List.perm_insertionSort _ _).mem_iff, mem_dedupFirst]

theorem jsIntKeys_sorted (ps : List Int) : List.Sorted (· ≤ ·) (jsIntKeys ps) :=
  List.sorted_insertionSort _ _

theorem foldl_pickMax_mem (f : α → Nat) (l : List α) (b0 : α) :
    l.foldl (pickMax f) b0 ∈ b0 :: l := by
  induction l generalizing b0 with
  | nil => simp
  | cons x xs ih =>
    simp only [List.foldl_cons]
    have hx : pickMax f b0 x = b0 ∨ pickMax f b0 x = x := by
      unfold pickMax; split
      · exact Or.inr rfl
      · exact Or.inl rfl
    rcases List.mem_cons.mp (ih (pickMax f b0 x)) with h1 | h1
    · rcases hx with h2 | h2 <;> rw [h1, h2] <;> simp
    · simp [List.mem_cons, h1]

theorem foldl_pickMax_ge (f : α → Nat) (l : List α) (b0 : α) :
    f b0 ≤ f (l.foldl (pickMax f) b0) ∧ ∀ k ∈ l, f k ≤ f (l.foldl (pickMax f) b0) := by
  induction l generalizing b0 with
  | nil => simp
  | cons x xs ih =>
    simp only [List.foldl_cons]
    obtain ⟨h1, h2⟩ := ih (pickMax f b0 x)
    have hb : f b0 ≤ f (pickMax f b0 x) ∧ f x ≤ f (pickMax f b0 x) := by
      unfold pickMax; split <;> omega
    refine ⟨le_trans hb.1 h1, ?_⟩
    intro k hk
    rcases List.mem_cons.mp hk with rfl | hk2
    · exact le_trans hb.2 h1
    · exact h2 k hk2

theorem foldl_pickMax_stay (f : α → Nat) (l : List α) (b0 : α)
    (h : ∀ k ∈ l, f k ≤ f b0) : l.foldl (pickMax f) b0 = b0 := by
  induction l generalizing b0 with
  | nil => rfl
  | cons x xs ih =>
    simp only [List.foldl_cons]
    have hx : pickMax f b0 x = b0 := by
      unfold pickMax
      rw [if_neg]
      have := h x (List.mem_cons_self x xs)
      omega
    rw [hx]
    exact ih b0 (fun k hk => h k (List.mem_cons_of_mem _ hk))

theorem foldl_pickMax_sorted_min (f : Int → Nat) (l : List Int) (b0 : Int)
    (hs : List.Sorted (· ≤ ·) l) (hex : ∃ k ∈ l, f b0 < f k) :
    l.foldl (pickMax f) b0 ∈ l ∧
    ∀ k ∈ l, f (l.foldl (pickMax f) b0) ≤ f k → l.foldl (pickMax f) b0 ≤ k := by
  induction l generalizing b0 with
  | nil => simp at hex
  | cons x xs ih =>
    obtain ⟨hhead, htail⟩ := List.sorted_cons.mp hs
    simp only [List.foldl_cons]
    by_cases hfx : f x > f b0
    · have hb1 : pickMax f b0 x = x := by unfold pickMax; rw [if_pos hfx]
      rw [hb1]
      by_cases hall : ∀ k ∈ xs, f k ≤ f x
      · rw [foldl_pickMax_stay f xs x hall]
        refine ⟨List.mem_cons_self x xs, ?_⟩
        intro k hk _
        rcases List.mem_cons.mp hk with heq | hk2
        · rw [heq]
        · exact hhead k hk2
      · push_neg at hall
        obtain ⟨k0, hk0, hk0f⟩ := hall
        obtain ⟨hmem, hmin⟩ := ih x htail ⟨k0, hk0, hk0f⟩
        refine ⟨List.mem_cons_of_mem _ hmem, ?_⟩
        intro k hk hf
        rcases List.mem_cons.mp hk with heq | hk2
        · rw [heq] at hf
          have hge := (foldl_pickMax_ge f xs x).2 k0 hk0
          omega
        · exact hmin k hk2 hf
    · have hb1 : pickMax f b0 x = b0 := by unfold pickMax; rw [if_neg hfx]
      rw [hb1]
      obtain ⟨k0, hk0, hk0f⟩ := hex
      have hk0x : k0 ∈ xs := by
        rcases List.mem_cons.mp hk0 with rfl | h
        · omega
        · exact h
      obtain ⟨hmem, hmin⟩ := ih b0 htail ⟨k0, hk0x, hk0f⟩
      refine ⟨List.mem_cons_of_mem _ hmem, ?_⟩
      intro k hk hf
      rcases List.mem_cons.mp hk with rfl | hk2
      · have hge := (foldl_pickMax_ge f xs b0).2 k0 hk0x
        omega
      · exact hmin k hk2 hf

theorem jsSliceTo_length_le (l : List α) (e : Int) :
    (jsSliceTo l e).length ≤ l.length := by
  unfold jsSliceTo
  split <;> exact (List.length_take _ _).le.trans (min_le_right _ _)

theorem jsSliceTo_length_le_int (l : List α) (e : Int) (h : 0 ≤ e) :
    ((jsSliceTo l e).length : Int) ≤ e := by
  unfold jsSliceTo
  rw [if_neg (by omega)]
  calc ((l.take e.toNat).length : Int) ≤ (e.toNat : Int) := by
        exact_mod_cast List.length_take_le e.toNat l
    _ = e := Int.toNat_of_nonneg h

theorem length_filter_mono (l : List α) (p q : α → Bool)
    (h : ∀ a, p a = true → q a = true) :
    (l.filter p).length ≤ (l.filter q).length :=
  (List.monotone_filter_right l h).length_le

theorem getD_zero_mem (l : List α) (d : α) (h : 0 < l.length) : l.getD 0 d ∈ l := by
  cases l with
  | nil => simp at h
  | cons x xs => simp [List.getD]


namespace AllocationEngine

theorem largestGroupOf_length_le (ws : List Worker) :
    (largestGroupOf ws).length ≤ ws.length := by
  have h : largestGroupOf ws ∈ ([] : List Worker) :: groupsOf ws :=
    foldl_pickMax_mem List.length (groupsOf ws) []
  rcases List.mem_cons.mp h with h1 | h1
  · rw [h1]; simp
  · rw [groupsOf] at h1
    obtain ⟨g, _, hgeq⟩ := List.mem_map.mp h1
    rw [← hgeq]
    exact List.length_filter_le _ _

theorem applySpecificRule_length_le (rule : BusinessRule) (t : Task) (c : Client)
    (ws : List Worker) : (applySpecificRule rule t c ws).length ≤ ws.length := by
  simp only [applySpecificRule]
  repeat' split
  all_goals first
    | exact (jsSortBy_length _ _).le
    | exact largestGroupOf_length_le ws
    | exact le_refl ws.length

theorem rulesFold_length_le (rules : List BusinessRule) (t : Task) (c : Client)
    (ws : List Worker) :
    (rules.foldl (fun l rule => applySpecificRule rule t c l) ws).length ≤ ws.length := by
  induction rules generalizing ws with
  | nil => exact le_refl _
  | cons r rs ih =>
    simp only [List.foldl_cons]
    exact le_trans (ih (applySpecificRule r t c ws)) (applySpecificRule_length_le r t c ws)

theorem applyBusinessRules_length_le_mc (E : AllocationEngine) (t : Task) (c : Client)
    (elig : List Worker) (h : 0 ≤ t.MaxConcurrent) :
    ((applyBusinessRules E t c elig).length : Int) ≤ t.MaxConcurrent := by
  simp only [applyBusinessRules]
  refine le_trans (jsSliceTo_length_le_int _ _ ?_) (min_le_left _ _)
  exact le_min h (Int.natCast_nonneg _)

theorem applyBusinessRules_length_le_elig (E : AllocationEngine) (t : Task) (c : Client)
    (elig : List Worker) :
    (applyBusinessRules E t c elig).length ≤ elig.length := by
  simp only [applyBusinessRules]
  exact le_trans (jsSliceTo_length_le _ _) (rulesFold_length_le _ _ _ _)

theorem findEligibleWorkers_length_le (E : AllocationEngine) (t : Task) :
    (findEligibleWorkers E t).length ≤ (skillQualifiedWorkers E t).length := by
  unfold findEligibleWorkers skillQualifiedWorkers
  refine length_filter_mono _ _ _ ?_
  intro w hw
  exact ((Bool.and_eq_true _ _) ▸ hw).1

theorem foldl_allocStep_allocations (E : AllocationEngine) (l : List TaskQueueEntry)
    (st : AllocState) :
    (l.foldl (allocStep E) st).allocations = st.allocations ++ l.filterMap (allocateTask E) := by
  induction l generalizing st with
  | nil => simp
  | cons e es ih =>
    simp only [List.foldl_cons, List.filterMap_cons]
    cases h : allocateTask E e with
    | none => rw [ih]; simp [allocStep, h]
    | some a => rw [ih]; simp [allocStep, h]

theorem executeAllocation_allocations (E : AllocationEngine) :
    (executeAllocation E).allocations = (buildTaskQueue E).filterMap (allocateTask E) := by
  simp only [executeAllocation]
  rw [foldl_allocStep_allocations]
  simp

theorem allocateTask_some_spec (E : AllocationEngine) (entry : TaskQueueEntry)
    (r : AllocationResult) (h : allocateTask E entry = some r) :
    r.taskId = entry.task.TaskID ∧
    r.assignedWorkerIds = (selectedFor E entry).map (fun w => w.WorkerID) ∧
    r.phase = selectOptimalPhase entry.task (selectedFor E entry) := by
  simp only [allocateTask] at h
  split at h
  · exact absurd h (by simp)
  · split at h
    · exact absurd h (by simp)
    · have h2 := Option.some.inj h
      subst h2
      exact ⟨rfl, rfl, rfl⟩

theorem mem_buildTaskQueue_task (E : AllocationEngine) (entry : TaskQueueEntry)
    (h : entry ∈ buildTaskQueue E) : entry.task ∈ E.tasks := by
  simp only [buildTaskQueue] at h
  have h2 := (jsSortBy_perm _ _).mem_iff.mp h
  obtain ⟨client, _, h3⟩ := List.mem_flatMap.mp h2
  obtain ⟨tid, _, h4⟩ := List.mem_filterMap.mp h3
  cases hfind : E.tasks.find? (fun t => t.TaskID = tid) with
  | none => rw [hfind] at h4; exact absurd h4 (by simp)
  | some task =>
    rw [hfind] at h4
    have h5 := congrArg TaskQueueEntry.task (Option.some.inj h4)
    rw [← h5]
    exact List.mem_of_find?_eq_some hfind

theorem selectOptimalPhase_empty (t : Task) (ws : List Worker)
    (hps : parsePhases t.PreferredPhases = []) : selectOptimalPhase t ws = 1 := by
  unfold selectOptimalPhase
  rw [hps]

theorem selectOptimalPhase_fold (t : Task) (ws : List Worker) (p0 : Int) (rest : List Int)
    (hps : parsePhases t.PreferredPhases = p0 :: rest) :
    selectOptimalPhase t ws = (jsIntKeys (p0 :: rest)).foldl (pickMax (phaseScore ws)) p0 := by
  unfold selectOptimalPhase
  rw [hps]

theorem selectOptimalPhase_spec (t : Task) (ws : List Worker) (p0 : Int) (rest : List Int)
    (hps : parsePhases t.PreferredPhases = p0 :: rest) :
    selectOptimalPhase t ws ∈ p0 :: rest ∧
    ∀ q ∈ p0 :: rest, phaseScore ws q ≤ phaseScore ws (selectOptimalPhase t ws) := by
  rw [selectOptimalPhase_fold t ws p0 rest hps]
  constructor
  · rcases List.mem_cons.mp (foldl_pickMax_mem (phaseScore ws) (jsIntKeys (p0 :: rest)) p0) with h | h
    · rw [h]; exact List.mem_cons_self _ _
    · exact (mem_jsIntKeys _ _).mp h
  · intro q hq
    exact (foldl_pickMax_ge (phaseScore ws) _ p0).2 q ((mem_jsIntKeys _ _).mpr hq)

end AllocationEngine


namespace AllocationEngine

/-- Claim C1: for every AllocationResult emitted by the allocation engine,
the number of assigned worker ids is at most the MaxConcurrent of the
generating task (the data model invariant MaxConcurrent at least 1 is a
hypothesis; a negative MaxConcurrent would make the slice semantics count
from the end) and at most the number of workers holding every required
skill of that task under the case-insensitive match of the engine. -/
theorem capacity_invariant (E : AllocationEngine)
    (hMC : ∀ t ∈ E.tasks, 1 ≤ t.MaxConcurrent) :
    ∀ r ∈ (executeAllocation E).allocations,
      ∃ t ∈ E.tasks, r.taskId = t.TaskID ∧
        (r.assignedWorkerIds.length : Int) ≤ t.MaxConcurrent ∧
        r.assignedWorkerIds.length ≤ (skillQualifiedWorkers E t).length := by
  intro r hr
  rw [executeAllocation_allocations] at hr
  obtain ⟨entry, hq, hsome⟩ := List.mem_filterMap.mp hr
  obtain ⟨hid, hids, _⟩ := allocateTask_some_spec E entry r hsome
  have htask := mem_buildTaskQueue_task E entry hq
  have hlen : r.assignedWorkerIds.length = (selectedFor E entry).length := by
    rw [hids, List.length_map]
  refine ⟨entry.task, htask, hid, ?_, ?_⟩
  · rw [hlen]
    refine applyBusinessRules_length_le_mc E entry.task entry.client _ ?_
    have := hMC entry.task htask
    omega
  · rw [hlen]
    exact le_trans (applyBusinessRules_length_le_elig E entry.task entry.client _)
      (findEligibleWorkers_length_le E entry.task)

/-- Witness for the capacity invariant at a concrete engine and its single
emitted result. -/
theorem capacity_invariant_witness :
    ∃ t ∈ engineW1.tasks, resultW1.taskId = t.TaskID ∧
      (resultW1.assignedWorkerIds.length : Int) ≤ t.MaxConcurrent ∧
      resultW1.assignedWorkerIds.length ≤ (skillQualifiedWorkers engineW1 t).length :=
  capacity_invariant engineW1 (by decide) resultW1 (getD_zero_mem _ noResult (by decide))

/-- Claim C3: the allocation run is a pure function of the engine inputs;
two runs over equal inputs produce equal summaries, in particular equal
AllocationResult sequences in order and content. -/
theorem allocation_deterministic (E1 E2 : AllocationEngine) (h : E1 = E2) :
    executeAllocation E1 = executeAllocation E2 := by
  rw [h]

/-- Witness for determinism at a concrete engine with an active rule and a
priority weight. -/
theorem allocation_deterministic_witness :
    executeAllocation engineW3 = executeAllocation engineW3 :=
  allocation_deterministic engineW3 engineW3 rfl

/-- Claim C9: the allocation run never mutates its inputs.  The only in
place operations the source performs are sort calls on arrays freshly
created by filter or a spread copy; the run with the engine state threaded
through every per-task step returns the engine unchanged, and its summary
is the summary of the plain run. -/
theorem inputs_not_mutated (E : AllocationEngine) :
    (executeAllocationRW E).2 = E ∧ (executeAllocationRW E).1 = executeAllocation E := by
  have hfold : ∀ (l : List TaskQueueEntry) (st : AllocState),
      l.foldl allocStepRW (E, st) = (E, l.foldl (allocStep E) st) := by
    intro l
    induction l with
    | nil => intro st; rfl
    | cons e es ih =>
      intro st
      simp only [List.foldl_cons, allocStepRW]
      exact ih _
  constructor
  · simp only [executeAllocationRW]
    rw [hfold]
  · simp only [executeAllocationRW, executeAllocation]
    rw [hfold]

end AllocationEngine


theorem contains_iff_mem [BEq α] [LawfulBEq α] (l : List α) (a : α) :
    l.contains a = true ↔ a ∈ l :=
  List.elem_iff

namespace AllocationEngine

/-- Claim C2 counterexample: with the single preferred phase 2 and the only
eligible worker available only in phase 1, the engine still emits a result
choosing phase 2; the parsed PreferredPhases is nonempty and the assigned
worker does not hold the chosen phase in its parsed AvailableSlots. -/
theorem phase_feasibility_cex :
    (executeAllocation engineX2).allocations.map (fun r => (r.phase, r.assignedWorkerIds)) =
      [((2 : Int), ["W1"])] ∧
    parsePhases taskX2.PreferredPhases = [2] ∧
    parseSlots workerX2.AvailableSlots = [1] ∧
    ¬ ((2 : Int) ∈ parseSlots workerX2.AvailableSlots) :=
  ⟨by decide, by decide, by decide, by decide⟩

/-- Claim C2 (amended): for every emitted result, either the parsed
PreferredPhases of the generating task is empty and the chosen phase is the
default 1, or the chosen phase is contained in every selected worker,
provided at least one preferred phase is contained in every selected
worker; when no preferred phase is feasible for all selected workers the
engine still picks a best scoring phase, which assigned workers may lack
(the counterexample). -/
theorem phase_feasibility_amended (E : AllocationEngine) :
    ∀ r ∈ (executeAllocation E).allocations,
      ∃ entry ∈ buildTaskQueue E,
        r.taskId = entry.task.TaskID ∧
        r.assignedWorkerIds = (selectedFor E entry).map (fun w => w.WorkerID) ∧
        ((parsePhases entry.task.PreferredPhases = [] ∧ r.phase = 1) ∨
          ((∃ q ∈ parsePhases entry.task.PreferredPhases,
              ∀ w ∈ selectedFor E entry, q ∈ parseSlots w.AvailableSlots) →
            ∀ w ∈ selectedFor E entry, r.phase ∈ parseSlots w.AvailableSlots)) := by
  intro r hr
  rw [executeAllocation_allocations] at hr
  obtain ⟨entry, hq, hsome⟩ := List.mem_filterMap.mp hr
  obtain ⟨hid, hids, hph⟩ := allocateTask_some_spec E entry r hsome
  refine ⟨entry, hq, hid, hids, ?_⟩
  cases hps : parsePhases entry.task.PreferredPhases with
  | nil =>
    refine Or.inl ⟨rfl, ?_⟩
    rw [hph]
    exact selectOptimalPhase_empty _ _ hps
  | cons p0 rest =>
    refine Or.inr ?_
    rintro ⟨q, hqmem, hall⟩ w hw
    obtain ⟨_, hmax⟩ := selectOptimalPhase_spec entry.task (selectedFor E entry) p0 rest hps
    have hq_full : phaseScore (selectedFor E entry) q = (selectedFor E entry).length := by
      unfold phaseScore
      rw [List.filter_eq_self.mpr]
      intro w2 hw2
      exact (contains_iff_mem _ _).mpr (hall w2 hw2)
    have hle : phaseScore (selectedFor E entry)
        (selectOptimalPhase entry.task (selectedFor E entry)) ≤ (selectedFor E entry).length :=
      List.length_filter_le _ _
    have hgemax := hmax q hqmem
    have hchosen_full : phaseScore (selectedFor E entry)
        (selectOptimalPhase entry.task (selectedFor E entry)) = (selectedFor E entry).length := by
      omega
    unfold phaseScore at hchosen_full
    have heq := (@List.filter_sublist _
      (fun w2 => (parseSlots w2.AvailableSlots).contains
        (selectOptimalPhase entry.task (selectedFor E entry)))
      (selectedFor E entry)).eq_of_length hchosen_full
    have hw2 : w ∈ List.filter
        (fun w2 => (parseSlots w2.AvailableSlots).contains
          (selectOptimalPhase entry.task (selectedFor E entry)))
        (selectedFor E entry) := by
      rw [heq]; exact hw
    have hcontains := List.of_mem_filter hw2
    rw [hph]
    exact (contains_iff_mem _ _).mp hcontains

/-- Witness for the amended phase feasibility at a concrete engine whose
single preferred phase is feasible for the selected worker. -/
theorem phase_feasibility_amended_witness :
    ∃ entry ∈ buildTaskQueue engineW2,
      resultW2.taskId = entry.task.TaskID ∧
      resultW2.assignedWorkerIds = (selectedFor engineW2 entry).map (fun w => w.WorkerID) ∧
      ((parsePhases entry.task.PreferredPhases = [] ∧ resultW2.phase = 1) ∨
        ((∃ q ∈ parsePhases entry.task.PreferredPhases,
            ∀ w ∈ selectedFor engineW2 entry, q ∈ parseSlots w.AvailableSlots) →
          ∀ w ∈ selectedFor engineW2 entry, resultW2.phase ∈ parseSlots w.AvailableSlots)) :=
  phase_feasibility_amended engineW2 resultW2 (getD_zero_mem _ noResult (by decide))

end AllocationEngine


namespace AllocationEngine

/-- Claim C6 counterexample: preferred phases parse to [1, 3, 2] and the
single selected worker is available in phases 2 and 3, so 3 and 2 tie on
the maximal score and 3 occurs earlier in PreferredPhases order; the engine
nevertheless chooses 2, because the score record keys are enumerated in
ascending numeric order, not in PreferredPhases order. -/
theorem phase_tiebreak_cex :
    parsePhases taskX6.PreferredPhases = [1, 3, 2] ∧
    phaseScore [workerX6] 3 = 1 ∧
    phaseScore [workerX6] 2 = 1 ∧
    phaseScore [workerX6] 1 = 0 ∧
    selectOptimalPhase taskX6 [workerX6] = 2 ∧
    selectOptimalPhase taskX6 [workerX6] ≠ 3 :=
  ⟨by decide, by decide, by decide, by decide, by decide, by decide⟩

/-- Claim C6 (amended): with an empty parsed PreferredPhases the phase is
the default 1; otherwise the chosen phase is a preferred phase with the
maximal count of selected workers available in it, and a tie on the maximal
count is broken in favour of the first preferred phase when it attains the
maximum and otherwise in favour of the numerically smallest maximal phase
(not the phase occurring earliest in the PreferredPhases sequence).  The
bounds hypothesis keeps every phase inside the array index key range, where
ascending enumeration is the JavaScript object key order. -/
theorem phase_selection_amended (task : Task) (ws : List Worker)
    (_hb : ∀ p ∈ parsePhases task.PreferredPhases, 0 ≤ p ∧ p < 4294967295) :
    (parsePhases task.PreferredPhases = [] → selectOptimalPhase task ws = 1) ∧
    ∀ p0 rest, parsePhases task.PreferredPhases = p0 :: rest →
      selectOptimalPhase task ws ∈ p0 :: rest ∧
      (∀ q ∈ p0 :: rest, phaseScore ws q ≤ phaseScore ws (selectOptimalPhase task ws)) ∧
      (phaseScore ws p0 = phaseScore ws (selectOptimalPhase task ws) →
        selectOptimalPhase task ws = p0) ∧
      (phaseScore ws p0 < phaseScore ws (selectOptimalPhase task ws) →
        ∀ q ∈ p0 :: rest,
          phaseScore ws (selectOptimalPhase task ws) ≤ phaseScore ws q →
          selectOptimalPhase task ws ≤ q) := by
  refine ⟨fun h => selectOptimalPhase_empty task ws h, ?_⟩
  intro p0 rest hps
  obtain ⟨hmem, hmax⟩ := selectOptimalPhase_spec task ws p0 rest hps
  refine ⟨hmem, hmax, ?_, ?_⟩
  · intro hp0
    rw [selectOptimalPhase_fold task ws p0 rest hps]
    apply foldl_pickMax_stay
    intro k hk
    have := hmax k ((mem_jsIntKeys _ _).mp hk)
    omega
  · intro hlt q hq hge
    have hfold := selectOptimalPhase_fold task ws p0 rest hps
    rw [hfold] at hlt hge ⊢
    have hexists : ∃ k ∈ jsIntKeys (p0 :: rest), phaseScore ws p0 < phaseScore ws k := by
      refine ⟨(jsIntKeys (p0 :: rest)).foldl (pickMax (phaseScore ws)) p0, ?_, hlt⟩
      rcases List.mem_cons.mp
        (foldl_pickMax_mem (phaseScore ws) (jsIntKeys (p0 :: rest)) p0) with h | h
      · exfalso; rw [h] at hlt; omega
      · exact h
    obtain ⟨_, hmin⟩ := foldl_pickMax_sorted_min (phaseScore ws) (jsIntKeys (p0 :: rest)) p0
      (jsIntKeys_sorted (p0 :: rest)) hexists
    exact hmin q ((mem_jsIntKeys _ _).mpr hq) hge

/-- Witness for the amended phase selection at a concrete task and worker
list. -/
theorem phase_selection_amended_witness :
    (parsePhases taskW6.PreferredPhases = [] → selectOptimalPhase taskW6 [workerW6] = 1) ∧
    ∀ p0 rest, parsePhases taskW6.PreferredPhases = p0 :: rest →
      selectOptimalPhase taskW6 [workerW6] ∈ p0 :: rest ∧
      (∀ q ∈ p0 :: rest,
        phaseScore [workerW6] q ≤ phaseScore [workerW6] (selectOptimalPhase taskW6 [workerW6])) ∧
      (phaseScore [workerW6] p0 = phaseScore [workerW6] (selectOptimalPhase taskW6 [workerW6]) →
        selectOptimalPhase taskW6 [workerW6] = p0) ∧
      (phaseScore [workerW6] p0 < phaseScore [workerW6] (selectOptimalPhase taskW6 [workerW6]) →
        ∀ q ∈ p0 :: rest,
          phaseScore [workerW6] (selectOptimalPhase taskW6 [workerW6]) ≤ phaseScore [workerW6] q →
          selectOptimalPhase taskW6 [workerW6] ≤ q) :=
  phase_selection_amended taskW6 [workerW6] (by decide)

/-- Claim C7 counterexample: the string oops is neither a range nor valid
JSON, and the engine phase parser degrades to the one element default [1],
not to the empty sequence. -/
theorem parse_degradation_cex :
    jsonValid ("oops") = false ∧
    parsePhases ("oops") = [1] ∧
    parsePhases ("oops") ≠ [] :=
  ⟨by decide, by decide, by decide⟩

/-- Claim C7 (amended): the per record parsers are total functions; a slot
string that is not valid JSON degrades to the empty sequence, which makes
the worker ineligible, while a phase string failing both the range and the
JSON parse degrades to the one element default [1], so the task is
scheduled on phase 1 rather than falling into the empty PreferredPhases
case. -/
theorem parse_degradation_amended (s : String) (E : AllocationEngine)
    (t : Task) (ws : List Worker)
    (hjson : jsonValid s = false) (hhy : jsIncludes s ("-") = false) :
    parseSlots s = [] ∧
    parsePhases s = [1] ∧
    (∀ w ∈ E.workers, w.AvailableSlots = s → w ∉ findEligibleWorkers E t) ∧
    (t.PreferredPhases = s → selectOptimalPhase t ws = 1) := by
  have hdoc : jsonDoc s = none := by
    unfold jsonValid at hjson
    exact Option.not_isSome_iff_eq_none.mp (by rw [hjson]; simp)
  have harr : jsonIntArray s = none := by
    unfold jsonIntArray
    rw [hdoc]
  have hslots : parseSlots s = [] := by
    unfold parseSlots
    rw [harr]
    rfl
  have hphases : parsePhases s = [1] := by
    unfold parsePhases
    rw [if_neg (by simp [hhy]), harr]
    rfl
  refine ⟨hslots, hphases, ?_, ?_⟩
  · intro w _ hws hmem
    have hcond := List.of_mem_filter hmem
    rw [hws, hslots] at hcond
    simp at hcond
  · intro hts
    have hp : parsePhases t.PreferredPhases = [1] := by rw [hts]; exact hphases
    unfold selectOptimalPhase
    rw [hp]
    show (jsIntKeys [1]).foldl (pickMax (phaseScore ws)) 1 = 1
    have hk : jsIntKeys [1] = [1] := rfl
    rw [hk]
    simp only [List.foldl_cons, List.foldl_nil, pickMax]
    exact ite_self 1

/-- Witness for the amended parse degradation at the concrete unparseable
string oops. -/
theorem parse_degradation_amended_witness :
    parseSlots ("oops") = [] ∧
    parsePhases ("oops") = [1] ∧
    (∀ w ∈ engineW7.workers, w.AvailableSlots = "oops" → w ∉ findEligibleWorkers engineW7 taskW7) ∧
    (taskW7.PreferredPhases = "oops" → selectOptimalPhase taskW7 [] = 1) :=
  parse_degradation_amended ("oops") engineW7 taskW7 [] (by decide) (by decide)

end AllocationEngine


namespace Gemini

/-- Claim C4 (code bug): two workers sharing the id W001 produce no
duplicate id finding at all, because validateDuplicateIds only implements
the client id check; the whole validateData battery also reports no finding
for this input, although the repository test notes expect a duplicate
WorkerID error on the later row. -/
theorem duplicate_worker_ids_unreported :
    workerD4a.WorkerID = "W001" ∧ workerD4b.WorkerID = "W001" ∧
    validateDuplicateIds [] [workerD4a, workerD4b] [] = [] ∧
    (validateData [] [workerD4a, workerD4b] []).errors = [] :=
  ⟨by decide, by decide, by decide, by decide⟩

/-- Claim C5 counterexample: the task requires rust and a worker holds
Rust; the skill coverage check still reports a missing skill finding,
because its Set membership test is case sensitive (unlike the eligibility
filter of the allocation engine, which lowercases both sides). -/
theorem skill_coverage_case_cex :
    (validateSkillCoverage [parseWorker workerX5] [parseTask taskX5]).map
        (fun e => (e.row, e.id)) = [((0 : Int), "missing-skill-T5-rust")] ∧
    ((parseWorker workerX5).Skills.any (fun ws => jsToLower ws = jsToLower ("rust"))) = true :=
  ⟨by decide, by decide⟩

/-- Claim C5 (amended): the skill coverage check reports a finding for a
required skill of a task exactly when no worker holds that skill with an
exact, case sensitive tag match on the parsed skill lists. -/
theorem skill_coverage_exact_match (workers : List ParsedWorker) (tasks : List ParsedTask)
    (i : Nat) (t : ParsedTask) (sk : String)
    (hit : (i, t) ∈ tasks.enum) (hsk : sk ∈ t.RequiredSkills) :
    (∃ e ∈ validateSkillCoverage workers tasks,
        e.row = (i : Int) ∧ e.id = "missing-skill-" ++ t.TaskID ++ "-" ++ sk) ↔
      sk ∉ workers.flatMap (fun w => w.Skills) := by
  constructor
  · rintro ⟨e, he, hrow, hid⟩
    unfold validateSkillCoverage at he
    obtain ⟨jt, hjt, he2⟩ := List.mem_flatMap.mp he
    obtain ⟨sk2, hsk2, heq⟩ := List.mem_map.mp he2
    have hrow2 : (jt.1 : Int) = (i : Int) := by rw [← hrow, ← heq]
    have hji : jt.1 = i := by exact_mod_cast hrow2
    have hjt2 : jt.2 = t := by
      have h1 := List.mem_enum_iff_getElem?.mp hjt
      have h2 := List.mem_enum_iff_getElem?.mp hit
      rw [hji] at h1
      rw [h1] at h2
      exact Option.some.inj h2
    have hid2 : "missing-skill-" ++ t.TaskID ++ "-" ++ sk2 =
        "missing-skill-" ++ t.TaskID ++ "-" ++ sk := by
      rw [← hid, ← heq, hjt2]
    have hsk_eq : sk2 = sk := by
      apply String.ext
      have h3 := congrArg String.data hid2
      simp only [String.data_append] at h3
      exact List.append_cancel_left h3
    have hfail := List.of_mem_filter hsk2
    rw [hsk_eq] at hfail
    simp only [Bool.not_eq_eq_eq_not, Bool.not_true] at hfail
    intro hmem
    rw [(by rfl : (workers.flatMap fun w => w.Skills) = workers.flatMap fun w => w.Skills)] at hmem
    have := (contains_iff_mem (workers.flatMap fun w => w.Skills) sk).mpr hmem
    rw [this] at hfail
    exact Bool.noConfusion hfail
  · intro hnc
    unfold validateSkillCoverage
    refine ⟨_, List.mem_flatMap.mpr ⟨(i, t), hit, List.mem_map.mpr ⟨sk, ?_, rfl⟩⟩, rfl, rfl⟩
    refine List.mem_filter.mpr ⟨hsk, ?_⟩
    simp only [Bool.not_eq_eq_eq_not, Bool.not_true]
    by_contra h
    have h2 : (workers.flatMap fun w => w.Skills).contains sk = true := by
      cases hc : (workers.flatMap fun w => w.Skills).contains sk with
      | true => rfl
      | false => exact absurd hc h
    exact hnc ((contains_iff_mem _ _).mp h2)

/-- Witness for the amended skill coverage characterization at the
concrete task requiring rust with a worker holding Rust: the finding is
reported exactly because the exact match fails. -/
theorem skill_coverage_exact_match_witness :
    (∃ e ∈ validateSkillCoverage [parseWorker workerX5] [parseTask taskX5],
        e.row = ((0 : Nat) : Int) ∧
        e.id = "missing-skill-" ++ (parseTask taskX5).TaskID ++ "-" ++ "rust") ↔
      "rust" ∉ [parseWorker workerX5].flatMap (fun w => w.Skills) :=
  skill_coverage_exact_match [parseWorker workerX5] [parseTask taskX5] 0 (parseTask taskX5)
    ("rust") (List.mem_enum_iff_getElem?.mpr (by rfl)) (by decide)

/-- Claim C8 counterexample: the requested task id list a,,b parses to the
three token sequence with the empty middle token kept, not to the two
token sequence the claim states. -/
theorem list_parsing_cex :
    clientX8.RequestedTaskIDs = "a,,b" ∧
    (parseClient clientX8).RequestedTaskIDs = ["a", "", "b"] ∧
    (parseClient clientX8).RequestedTaskIDs ≠ ["a", "b"] :=
  ⟨by decide, by decide, by decide⟩

/-- Claim C8 (amended): the normalizer splits the comma separated list
fields on commas and trims every token, keeping order, duplicates and
empty tokens (empty tokens are not dropped). -/
theorem list_parsing_amended (c : Client) (w : Worker) (t : Task) :
    (parseClient c).RequestedTaskIDs = (jsSplit c.RequestedTaskIDs ',').map jsTrim ∧
    (parseWorker w).Skills = (jsSplit w.Skills ',').map jsTrim ∧
    (parseTask t).RequiredSkills = (jsSplit t.RequiredSkills ',').map jsTrim :=
  ⟨rfl, rfl, rfl⟩

/-- Claim C10: the validation summary passes exactly when the finding list
contains no finding of severity error (warnings and infos never block), and
the three totals are the counts of findings of the matching severities. -/
theorem validation_summary_consistency (clients : List Client) (workers : List Worker)
    (tasks : List Task) :
    ((validateData clients workers tasks).validationsPassed = true ↔
      ((validateData clients workers tasks).errors.filter
        (fun e => e.severity = Sev.error)) = []) ∧
    (validateData clients workers tasks).totalErrors =
      ((validateData clients workers tasks).errors.filter
        (fun e => e.severity = Sev.error)).length ∧
    (validateData clients workers tasks).totalWarnings =
      ((validateData clients workers tasks).errors.filter
        (fun e => e.severity = Sev.warning)).length ∧
    (validateData clients workers tasks).totalInfo =
      ((validateData clients workers tasks).errors.filter
        (fun e => e.severity = Sev.info)).length := by
  refine ⟨?_, rfl, rfl, rfl⟩
  show decide (((validateData clients workers tasks).errors.filter
    (fun e => e.severity = Sev.error)).length = 0) = true ↔ _
  rw [decide_eq_true_iff, List.length_eq_zero]

end Gemini

end DA
